import Mathlib

/-!
Shallow embedding of the paired-alignment payload codec in
`src/BamAlignment.cpp` (RSEM): the nucleotide complement table, the
in-place `compress` / `decompress` record transformations, the logical
unit reader `BamAlignment::read` and writer `BamAlignment::write`.

A BAM record (`bam1_t` of htslib) is a fixed header plus one contiguous
byte buffer laid out as: query name (`l_qname` bytes, including the
terminating null and `l_extranul` padding nulls), CIGAR (`4 * n_cigar`
bytes), packed sequence (`(l_qseq + 1) / 2` bytes, two 4-bit base codes
per byte, high nibble first), quality (`l_qseq` bytes), auxiliary block
(the remaining `l_data` bytes).  The buffer is modelled as a total
function `Nat → Nat` (byte index to byte value); `l_data` is the logical
extent.  `memmove` / `memcpy` become read-a-range-then-write-it, which is
exactly the overlap-safe semantics of `memmove`.
-/

namespace BamSpec

/-- Byte buffer: index to byte value. -/
def Buf : Type := Nat → Nat

/-- Read `len` bytes starting at `off` (the source range of a `memmove`). -/
def readRange (d : Buf) (off len : Nat) : List Nat :=
  (List.range len).map (fun j => d (off + j))

/-- Write the byte list `src` at offset `off`, leaving all other bytes. -/
def writeRange (d : Buf) (off : Nat) (src : List Nat) : Buf :=
  fun i => if off ≤ i ∧ i < off + src.length then src.getD (i - off) 0 else d i

/-- `memmove(d + dst, d + src, len)`: overlap-safe range copy. -/
def memmove (d : Buf) (dst src len : Nat) : Buf :=
  writeRange d dst (readRange d src len)

/-- The embedded `bam1_t`: header fields plus the data buffer.
`l_qseq` is `int32_t` in htslib but is never negative in a structurally
valid record, so it is a `Nat` here (the source test `l_qseq <= 0`
becomes `l_qseq = 0`). -/
structure bam1_t where
  flag : Nat
  l_qname : Nat
  l_extranul : Nat
  n_cigar : Nat
  l_qseq : Nat
  l_data : Nat
  data : Buf

/-- Modelled from the spec: flag accessor `bam_is_paired` (sam_utils
header, not under src/) tests the standard BAM pairing bit 0x1. -/
def bam_is_paired (b : bam1_t) : Bool := b.flag % 2 = 1

/-- Modelled from the spec: flag accessor `bam_is_mapped` (sam_utils
header, not under src/) tests that the unmapped bit 0x4 is clear. -/
def bam_is_mapped (b : bam1_t) : Bool := b.flag / 4 % 2 = 0

/-- Modelled from the spec: flag accessor `bam_is_rev` (reverse-strand
bit 0x10; sam_utils header, not under src/). -/
def bam_is_rev (b : bam1_t) : Bool := b.flag / 16 % 2 = 1

/-- Modelled from the spec: flag accessor `bam_is_read2` (second-in-pair
bit 0x80; sam_utils header, not under src/). -/
def bam_is_read2 (b : bam1_t) : Bool := b.flag / 128 % 2 = 1

/-- The two mate-identity bits `flag & 0x00C0`, as read by the pairing
assertion in `BamAlignment::read`: 0x40 = first-in-pair, 0x80 =
second-in-pair.  `flag / 64 % 4 * 64` is `flag & 0xC0`. -/
def mateBits (b : bam1_t) : Nat := b.flag / 64 % 4 * 64

/-- Number of bytes of the packed sequence region for `l` bases. -/
def seqBytes (l : Nat) : Nat := (l + 1) / 2

/-- Offset of the CIGAR region (`bam_get_cigar`). -/
def cigar_off (b : bam1_t) : Nat := b.l_qname

/-- Offset of the packed sequence region (`bam_get_seq`). -/
def seq_off (b : bam1_t) : Nat := b.l_qname + 4 * b.n_cigar

/-- Offset of the quality region (`bam_get_qual`). -/
def qual_off (b : bam1_t) : Nat := seq_off b + seqBytes b.l_qseq

/-- Offset of the auxiliary block (`bam_get_aux`). -/
def aux_off (b : bam1_t) : Nat := qual_off b + b.l_qseq

/-- htslib `bam_get_l_aux`: auxiliary block length implied by the
header. Truncated subtraction agrees with the C `int` value on every
record satisfying the layout invariant `aux_off b ≤ b.l_data`. -/
def bam_get_l_aux (b : bam1_t) : Nat := b.l_data - aux_off b

/-- The constant `BamAlignment::rnt_table` (line 36 of the source). -/
def rnt_table : List Nat := [0, 8, 4, 0, 2, 0, 0, 0, 1, 0, 0, 0, 0, 0, 0, 15]

/-- Table lookup of a packed 4-bit nucleotide code. -/
def rnt (c : Nat) : Nat := rnt_table.getD c 0

/-- htslib `bam_seqi`: the 4-bit code of base `i` in a packed sequence
region starting at byte offset `off` (high nibble first). -/
def bam_seqi (d : Buf) (off i : Nat) : Nat :=
  if i % 2 = 0 then d (off + i / 2) / 16 % 16 else d (off + i / 2) % 16

/-- Unpack `len` base codes of the packed region at `off`. -/
def unpackSeq (d : Buf) (off len : Nat) : List Nat :=
  (List.range len).map (fun i => bam_seqi d off i)

/-- Pack a list of 4-bit codes, two per byte, high nibble first; an odd
tail leaves the final low nibble zero. -/
def packSeq (codes : List Nat) : List Nat :=
  (List.range (seqBytes codes.length)).map
    (fun j => 16 * (codes.getD (2 * j) 0 % 16) + codes.getD (2 * j + 1) 0 % 16)

/-- Modelled from the spec: `copy_rc_seq` (declared in BamAlignment.hpp,
not under src/) writes the reverse complement of the donor sequence —
base order reversed and every base replaced through `rnt_table`
(spec 4.4 step 5). Result is the packed byte list to store. -/
def copy_rc_seq (other : bam1_t) (len : Nat) : List Nat :=
  packSeq (((unpackSeq other.data (seq_off other) len).reverse).map rnt)

/-- Modelled from the spec: `copy_r_qual` (declared in BamAlignment.hpp,
not under src/) copies the donor quality string with order reversed and
values unchanged (spec 4.4 step 5). -/
def copy_r_qual (other : bam1_t) (len : Nat) : List Nat :=
  (readRange other.data (qual_off other) len).reverse

/-- Modelled from the spec: `expand_data_size` (BamAlignment.hpp, not
under src/) only grows the physical capacity of the buffer to `l_data`,
preserving content; buffers here are total functions, so it is the
identity. -/
def expand_data_size (b : bam1_t) : bam1_t := b

/-- `BamAlignment::compress` (source lines 99-108), performed on the
record value.  Offsets `bam_get_cigar` / `bam_get_aux` are read before
the header fields are updated, exactly as in the source. -/
def compress (b : bam1_t) : bam1_t :=
  let l_aux := bam_get_l_aux b
  let d0 := writeRange b.data 0 [0, 0, 0, 0]
  let d1 := memmove d0 4 (cigar_off b) (b.n_cigar * 4)
  let d2 := memmove d1 (4 + b.n_cigar * 4) (aux_off b) l_aux
  { b with data := d2, l_data := 4 + b.n_cigar * 4 + l_aux,
           l_qname := 4, l_extranul := 3, l_qseq := 0 }

/-- `BamAlignment::decompress` (source lines 110-129): copy the donor
header fields, recompute `l_data`, relocate aux then CIGAR, copy the
donor name, then copy the sequence and quality verbatim when the two
reverse-strand flags agree, and reverse-complemented / reversed when
they differ. -/
def decompress (b other : bam1_t) : bam1_t :=
  let l_aux := bam_get_l_aux b
  let b1 : bam1_t := { b with l_qname := other.l_qname,
                              l_extranul := other.l_extranul,
                              l_qseq := other.l_qseq }
  let b2 : bam1_t := { b1 with l_data :=
    b1.l_qname + b1.n_cigar * 4 + seqBytes b1.l_qseq + b1.l_qseq + l_aux }
  let b3 := expand_data_size b2
  let d1 := memmove b3.data (aux_off b3) (4 + b3.n_cigar * 4) l_aux
  let d2 := memmove d1 (cigar_off b3) 4 (b3.n_cigar * 4)
  let d3 := writeRange d2 0 (readRange other.data 0 b3.l_qname)
  let d4 :=
    if bam_is_rev b3 = bam_is_rev other then
      let da := writeRange d3 (seq_off b3)
        (readRange other.data (seq_off other) (seqBytes b3.l_qseq))
      writeRange da (qual_off b3) (readRange other.data (qual_off other) b3.l_qseq)
    else
      let da := writeRange d3 (seq_off b3) (copy_rc_seq other b3.l_qseq)
      writeRange da (qual_off b3) (copy_r_qual other b3.l_qseq)
  { b3 with data := d4 }

/-- A little-endian `uint32` read at byte offset `off` (CIGAR entries
are stored as 4-byte little-endian words). -/
def leU32 (d : Buf) (off : Nat) : Nat :=
  d off % 256 + 256 * (d (off + 1) % 256) + 65536 * (d (off + 2) % 256) +
    16777216 * (d (off + 3) % 256)

/-- htslib `bam_cigar_type(op) & 1`: whether CIGAR operation `op`
consumes query bases (`BAM_CIGAR_TYPE = 0x3C1A7`, bit `2 * op`). -/
def cigarConsumesQuery (op : Nat) : Bool := 0x3C1A7 / 4 ^ op % 2 = 1

/-- htslib `bam_cigar2qlen` applied to the record's own CIGAR region:
sum of operation lengths (`entry >> 4`) over the query-consuming
operations (`entry & 0xF`). -/
def bam_cigar2qlen (b : bam1_t) : Nat :=
  ((List.range b.n_cigar).map (fun k =>
    let c := leU32 b.data (cigar_off b + 4 * k)
    if cigarConsumesQuery (c % 16) then c / 16 else 0)).sum

/-- Outcome of `BamAlignment::read`: `eos` is the `return false` path
(end of stream), `fatal` a `general_assert` / `assert` abort, and `ok`
the successful unit: mate 1 first, mate 2 when paired, and the
`is_aligned` status bitmask. -/
inductive ReadOutcome where
  | eos : ReadOutcome
  | fatal : String → ReadOutcome
  | ok : bam1_t → Option bam1_t → Nat → ReadOutcome

/-- The `is_aligned` bitmask of a paired unit, mates in post-swap order
(source lines 59-60): `bam_is_mapped(b) | (bam_is_mapped(b2) << 1)`. -/
def pairedStatus (m1 m2 : bam1_t) : Nat :=
  (if bam_is_mapped m1 then 1 else 0) |||
    ((if bam_is_mapped m2 then 1 else 0) <<< 1)

/-- Source lines 63-67 for a paired unit, after the swap: resolve each
effective length (`l_qseq` elided means non-positive, here `= 0`,
replaced by the length hint), check it against the CIGAR-implied length
for every mapped mate, and return the unit. -/
def pairChecks (m1 m2 : bam1_t) (explen1 explen2 : Nat) : ReadOutcome :=
  if pairedStatus m1 m2 &&& 1 = 1 ∧
      (if m1.l_qseq = 0 then explen1 else m1.l_qseq) ≠ bam_cigar2qlen m1 then
    .fatal "assert: tmp_len == bam_cigar2qlen(b)"
  else if pairedStatus m1 m2 &&& 2 = 2 ∧
      (if m2.l_qseq = 0 then explen2 else m2.l_qseq) ≠ bam_cigar2qlen m2 then
    .fatal "assert: tmp_len2 == bam_cigar2qlen(b2)"
  else
    .ok m1 (some m2) (pairedStatus m1 m2)

/-- `BamAlignment::read` (source lines 38-70).  The record source
(`SamParser`, at the boundary) is the list `stream`; `explen1` /
`explen2` stand for the length-hint provider `o->getSeqLength(1/2)`.
Steps: read a record (empty stream is end-of-stream); if paired, read
the mate, abort unless it exists and is flagged paired and the two
mate-identity bit patterns are complementary; swap the two records when
the first physical record is flagged second-in-pair; then compute
`is_aligned` and run the length checks. -/
def readUnit (stream : List bam1_t) (explen1 explen2 : Nat) : ReadOutcome :=
  match stream with
  | [] => .eos
  | r1 :: rest =>
    if bam_is_paired r1 then
      match rest with
      | [] => .fatal "Fail to read the other mate for a paired-end alignment!"
      | r2 :: _ =>
        if ¬ bam_is_paired r2 then
          .fatal "Fail to read the other mate for a paired-end alignment!"
        else if ¬ ((mateBits r1 = 0x40 ∧ mateBits r2 = 0x80) ∨
                   (mateBits r1 = 0x80 ∧ mateBits r2 = 0x40)) then
          .fatal "Cannot detect both mates of a paired-end alignment!"
        else
          pairChecks (if bam_is_read2 r1 then r2 else r1)
            (if bam_is_read2 r1 then r1 else r2) explen1 explen2
    else
      if (if bam_is_mapped r1 then 1 else 0) &&& 1 = 1 ∧
          (if r1.l_qseq = 0 then explen1 else r1.l_qseq) ≠ bam_cigar2qlen r1 then
        .fatal "assert: tmp_len == bam_cigar2qlen(b)"
      else
        .ok r1 none (if bam_is_mapped r1 then 1 else 0)

/-- Source line 76/77: at the start of `BamAlignment::write`, a record
whose raw `l_qname` field is 1 (legacy compacted form) gets its
`l_qseq` field forced to 0. -/
def presetCompactSeq (r : bam1_t) : bam1_t :=
  if r.l_qname = 1 then { r with l_qseq := 0 } else r

/-- `BamAlignment::write` (source lines 73-97), returning the list of
records forwarded to the sink (`BamWriter`, at the boundary), or an
assertion failure.  `choice` is the action (0 none, 1 compress,
2 decompress); `ob` / `ob2` are the donor records `o->b` / `o->b2`.
Note line 88 of the source: the mate-2 decompress condition reads
`b2->core.l_qname - b->core.l_extranul`, i.e. mate 1's `l_extranul`
after the possible mate-1 decompress of line 87 — reproduced here
verbatim as `bd.l_extranul`. -/
def writeUnit (is_aligned : Int) (is_paired : Bool) (b : bam1_t)
    (b2 : Option bam1_t) (choice : Nat) (ob ob2 : bam1_t) :
    Except String (List bam1_t) :=
  if ¬ (0 ≤ is_aligned) then .error "assert: is_aligned >= 0" else
  match is_paired, b2 with
  | true, none => .error "assert: b2 != NULL"
  | true, some r2 =>
    let b1 := presetCompactSeq b
    let r2a := presetCompactSeq r2
    match choice with
    | 0 => .ok [b1, r2a]
    | 1 =>
      let bc := if (b1.l_qname : Int) - (b1.l_extranul : Int) > 1
                then compress b1 else b1
      let rc := if (r2a.l_qname : Int) - (r2a.l_extranul : Int) > 1
                then compress r2a else r2a
      .ok [bc, rc]
    | 2 =>
      let bd := if (b1.l_qname : Int) - (b1.l_extranul : Int) = 1
                then decompress b1 ob else b1
      let rd := if (r2a.l_qname : Int) - (bd.l_extranul : Int) = 1
                then decompress r2a ob2 else r2a
      .ok [bd, rd]
    | _ => .error "assert: false"
  | false, _ =>
    let b1 := presetCompactSeq b
    match choice with
    | 0 => .ok [b1]
    | 1 => .ok [if (b1.l_qname : Int) - (b1.l_extranul : Int) > 1
                then compress b1 else b1]
    | 2 => .ok [if (b1.l_qname : Int) - (b1.l_extranul : Int) = 1
                then decompress b1 ob else b1]
    | _ => .error "assert: false"

/-! Concrete records used as witness inputs. -/

/-- Uncompacted record: name 8 bytes (3 padding nulls), 1 CIGAR entry,
4 bases, 7 aux bytes (`aux_off = 18`, `l_data = 25`); reverse strand. -/
def wR : bam1_t := ⟨0x10, 8, 3, 1, 4, 25, fun i => i⟩

/-- Donor of the concrete scenario of the spec (section 8): forward
strand, name 8 bytes, no CIGAR, bases A,C,G,T (packed `0x12 0x48`),
quality 10,20,30,40, no aux. -/
def wDon : bam1_t :=
  ⟨0, 8, 0, 0, 4, 14,
   fun i => [65, 66, 67, 68, 0, 0, 0, 0, 0x12, 0x48, 10, 20, 30, 40].getD i 0⟩

/-- Compacted record on the reverse strand, same read as `wDon`. -/
def wCmp : bam1_t := ⟨0x10, 4, 3, 0, 0, 4, fun _ => 0⟩

/-- Paired, first-in-pair, mapped record (flag 0x41). -/
def wPr1 : bam1_t := ⟨0x41, 8, 3, 0, 0, 8, fun _ => 0⟩

/-- Paired, second-in-pair, mapped record (flag 0x81). -/
def wPr2 : bam1_t := ⟨0x81, 8, 3, 0, 0, 8, fun _ => 0⟩

/-- Legacy compacted record: raw `l_qname = 1`, nonzero `l_qseq`. -/
def wLeg : bam1_t := ⟨0, 1, 0, 0, 7, 10, fun _ => 0⟩

/-- Mate 1 of the C1 failing input: uncompacted, `l_qname = 6`,
`l_extranul = 1` (logical name length 5). -/
def c1_b : bam1_t := ⟨0, 6, 1, 0, 4, 14, fun _ => 0⟩

/-- Mate 2 of the C1 failing input: compacted (`l_qname = 4`,
`l_extranul = 3`, logical name length 1). -/
def c1_b2 : bam1_t := ⟨0, 4, 3, 0, 0, 4, fun _ => 0⟩

/-- Donor record for the C1 failing input: uncompacted, `l_qname = 8`. -/
def c1_don : bam1_t := ⟨0, 8, 0, 0, 4, 18, fun i => i⟩

/-! Pointwise characterization of the buffer primitives. -/

theorem writeRange_apply (d : Buf) (off : Nat) (src : List Nat) (i : Nat) :
    writeRange d off src i =
      if off ≤ i ∧ i < off + src.length then src.getD (i - off) 0 else d i := rfl

theorem length_readRange (d : Buf) (off len : Nat) :
    (readRange d off len).length = len := by
  simp [readRange]

theorem getD_readRange (d : Buf) (off len j : Nat) (h : j < len) :
    (readRange d off len).getD j 0 = d (off + j) := by
  rw [readRange, List.getD_eq_getElem?_getD, List.getElem?_map,
      List.getElem?_range h]
  rfl

theorem memmove_apply (d : Buf) (dst src len i : Nat) :
    memmove d dst src len i =
      if dst ≤ i ∧ i < dst + len then d (src + (i - dst)) else d i := by
  rw [memmove, writeRange_apply, length_readRange]
  by_cases h : dst ≤ i ∧ i < dst + len
  · rw [if_pos h, if_pos h, getD_readRange]
    omega
  · rw [if_neg h, if_neg h]

theorem readRange_congr (d d' : Buf) (off off' len : Nat)
    (h : ∀ j, j < len → d (off + j) = d' (off' + j)) :
    readRange d off len = readRange d' off' len := by
  unfold readRange
  have : ∀ j ∈ List.range len, d (off + j) = d' (off' + j) := by
    intro j hj
    exact h j (List.mem_range.mp hj)
  calc (List.range len).map (fun j => d (off + j))
      = (List.range len).map (fun j => d' (off' + j)) :=
        List.map_congr_left this
    _ = readRange d' off' len := rfl

/-! Region-by-region characterization of the `compress` output buffer. -/

theorem compress_data_eq (b : bam1_t) :
    (compress b).data =
      memmove (memmove (writeRange b.data 0 [0, 0, 0, 0]) 4 (cigar_off b)
        (b.n_cigar * 4)) (4 + b.n_cigar * 4) (aux_off b) (bam_get_l_aux b) := rfl

theorem compress_data_name (b : bam1_t) (i : Nat) (h : i < 4) :
    (compress b).data i = 0 := by
  have hoff : aux_off b = b.l_qname + 4 * b.n_cigar + seqBytes b.l_qseq +
      b.l_qseq := rfl
  rw [compress_data_eq, memmove_apply, if_neg (by omega), memmove_apply,
      if_neg (by omega), writeRange_apply, if_pos (by simp; omega)]
  interval_cases i <;> rfl

theorem compress_data_cigar (b : bam1_t) (hq : 4 ≤ b.l_qname) (i : Nat)
    (h1 : 4 ≤ i) (h2 : i < 4 + b.n_cigar * 4) :
    (compress b).data i = b.data (b.l_qname + (i - 4)) := by
  have hoff : cigar_off b = b.l_qname := rfl
  rw [compress_data_eq, memmove_apply, if_neg (by omega), memmove_apply,
      if_pos (by omega), writeRange_apply, if_neg (by simp; omega), hoff]

theorem compress_data_aux (b : bam1_t) (hq : 4 ≤ b.l_qname) (i : Nat)
    (h1 : 4 + b.n_cigar * 4 ≤ i) (h2 : i < 4 + b.n_cigar * 4 + bam_get_l_aux b) :
    (compress b).data i = b.data (aux_off b + (i - (4 + b.n_cigar * 4))) := by
  have hoff : aux_off b = b.l_qname + 4 * b.n_cigar + seqBytes b.l_qseq +
      b.l_qseq := rfl
  rw [compress_data_eq, memmove_apply, if_pos (by omega), memmove_apply,
      if_neg (by omega), writeRange_apply, if_neg (by simp; omega)]

theorem compress_header (b : bam1_t) :
    (compress b).l_qname = 4 ∧ (compress b).l_extranul = 3 ∧
    (compress b).l_qseq = 0 ∧ (compress b).n_cigar = b.n_cigar ∧
    (compress b).flag = b.flag ∧
    (compress b).l_data = 4 + b.n_cigar * 4 + bam_get_l_aux b :=
  ⟨rfl, rfl, rfl, rfl, rfl, rfl⟩

/-! Region-by-region characterization of the `decompress` output. -/

theorem decompress_header (b other : bam1_t) :
    (decompress b other).l_qname = other.l_qname ∧
    (decompress b other).l_extranul = other.l_extranul ∧
    (decompress b other).l_qseq = other.l_qseq ∧
    (decompress b other).n_cigar = b.n_cigar ∧
    (decompress b other).flag = b.flag ∧
    (decompress b other).l_data = other.l_qname + b.n_cigar * 4 +
      seqBytes other.l_qseq + other.l_qseq + bam_get_l_aux b :=
  ⟨rfl, rfl, rfl, rfl, rfl, rfl⟩

theorem decompress_data_eq (b other : bam1_t) :
    (decompress b other).data =
      if bam_is_rev b = bam_is_rev other then
        writeRange (writeRange (writeRange (memmove (memmove b.data
          (other.l_qname + 4 * b.n_cigar + seqBytes other.l_qseq + other.l_qseq)
          (4 + b.n_cigar * 4) (bam_get_l_aux b))
          other.l_qname 4 (b.n_cigar * 4))
          0 (readRange other.data 0 other.l_qname))
          (other.l_qname + 4 * b.n_cigar)
          (readRange other.data (seq_off other) (seqBytes other.l_qseq)))
          (other.l_qname + 4 * b.n_cigar + seqBytes other.l_qseq)
          (readRange other.data (qual_off other) other.l_qseq)
      else
        writeRange (writeRange (writeRange (memmove (memmove b.data
          (other.l_qname + 4 * b.n_cigar + seqBytes other.l_qseq + other.l_qseq)
          (4 + b.n_cigar * 4) (bam_get_l_aux b))
          other.l_qname 4 (b.n_cigar * 4))
          0 (readRange other.data 0 other.l_qname))
          (other.l_qname + 4 * b.n_cigar)
          (copy_rc_seq other other.l_qseq))
          (other.l_qname + 4 * b.n_cigar + seqBytes other.l_qseq)
          (copy_r_qual other other.l_qseq) := rfl

theorem length_copy_rc_seq (other : bam1_t) (len : Nat) :
    (copy_rc_seq other len).length = seqBytes len := by
  simp [copy_rc_seq, packSeq, unpackSeq]

theorem length_copy_r_qual (other : bam1_t) (len : Nat) :
    (copy_r_qual other len).length = len := by
  simp [copy_r_qual, readRange]

theorem decompress_data_name (b other : bam1_t) (i : Nat)
    (h : i < other.l_qname) :
    (decompress b other).data i = other.data i := by
  rw [decompress_data_eq]
  by_cases hrev : bam_is_rev b = bam_is_rev other
  · rw [if_pos hrev, writeRange_apply, if_neg (by rw [length_readRange]; omega),
        writeRange_apply, if_neg (by rw [length_readRange]; omega),
        writeRange_apply, if_pos (by rw [length_readRange]; omega),
        getD_readRange _ _ _ _ (by omega)]
    simp
  · rw [if_neg hrev, writeRange_apply, if_neg (by rw [length_copy_r_qual]; omega),
        writeRange_apply, if_neg (by rw [length_copy_rc_seq]; omega),
        writeRange_apply, if_pos (by rw [length_readRange]; omega),
        getD_readRange _ _ _ _ (by omega)]
    simp

theorem decompress_data_cigar (b other : bam1_t) (hq : 4 ≤ other.l_qname)
    (i : Nat) (h1 : other.l_qname ≤ i)
    (h2 : i < other.l_qname + 4 * b.n_cigar) :
    (decompress b other).data i = b.data (4 + (i - other.l_qname)) := by
  rw [decompress_data_eq]
  by_cases hrev : bam_is_rev b = bam_is_rev other
  · rw [if_pos hrev, writeRange_apply, if_neg (by rw [length_readRange]; omega),
        writeRange_apply, if_neg (by rw [length_readRange]; omega),
        writeRange_apply, if_neg (by rw [length_readRange]; omega),
        memmove_apply, if_pos (by omega), memmove_apply, if_neg (by omega)]
  · rw [if_neg hrev, writeRange_apply, if_neg (by rw [length_copy_r_qual]; omega),
        writeRange_apply, if_neg (by rw [length_copy_rc_seq]; omega),
        writeRange_apply, if_neg (by rw [length_readRange]; omega),
        memmove_apply, if_pos (by omega), memmove_apply, if_neg (by omega)]

theorem decompress_data_seq_same (b other : bam1_t)
    (hrev : bam_is_rev b = bam_is_rev other) (i : Nat)
    (h1 : other.l_qname + 4 * b.n_cigar ≤ i)
    (h2 : i < other.l_qname + 4 * b.n_cigar + seqBytes other.l_qseq) :
    (decompress b other).data i =
      other.data (seq_off other + (i - (other.l_qname + 4 * b.n_cigar))) := by
  rw [decompress_data_eq, if_pos hrev, writeRange_apply,
      if_neg (by rw [length_readRange]; omega),
      writeRange_apply, if_pos (by rw [length_readRange]; omega),
      getD_readRange _ _ _ _ (by omega)]

theorem decompress_data_qual_same (b other : bam1_t)
    (hrev : bam_is_rev b = bam_is_rev other) (i : Nat)
    (h1 : other.l_qname + 4 * b.n_cigar + seqBytes other.l_qseq ≤ i)
    (h2 : i < other.l_qname + 4 * b.n_cigar + seqBytes other.l_qseq +
      other.l_qseq) :
    (decompress b other).data i =
      other.data (qual_off other +
        (i - (other.l_qname + 4 * b.n_cigar + seqBytes other.l_qseq))) := by
  rw [decompress_data_eq, if_pos hrev, writeRange_apply,
      if_pos (by rw [length_readRange]; omega),
      getD_readRange _ _ _ _ (by omega)]

theorem decompress_data_seq_rc (b other : bam1_t)
    (hrev : ¬ bam_is_rev b = bam_is_rev other) (i : Nat)
    (h1 : other.l_qname + 4 * b.n_cigar ≤ i)
    (h2 : i < other.l_qname + 4 * b.n_cigar + seqBytes other.l_qseq) :
    (decompress b other).data i =
      (copy_rc_seq other other.l_qseq).getD
        (i - (other.l_qname + 4 * b.n_cigar)) 0 := by
  rw [decompress_data_eq, if_neg hrev, writeRange_apply,
      if_neg (by rw [length_copy_r_qual]; omega),
      writeRange_apply, if_pos (by rw [length_copy_rc_seq]; omega)]

theorem decompress_data_qual_rc (b other : bam1_t)
    (hrev : ¬ bam_is_rev b = bam_is_rev other) (i : Nat)
    (h1 : other.l_qname + 4 * b.n_cigar + seqBytes other.l_qseq ≤ i)
    (h2 : i < other.l_qname + 4 * b.n_cigar + seqBytes other.l_qseq +
      other.l_qseq) :
    (decompress b other).data i =
      (copy_r_qual other other.l_qseq).getD
        (i - (other.l_qname + 4 * b.n_cigar + seqBytes other.l_qseq)) 0 := by
  rw [decompress_data_eq, if_neg hrev, writeRange_apply,
      if_pos (by rw [length_copy_r_qual]; omega)]

theorem pairChecks_ok {m1v m2v : bam1_t} {e1 e2 : Nat} {m1 : bam1_t}
    {m2 : Option bam1_t} {st : Nat}
    (h : pairChecks m1v m2v e1 e2 = .ok m1 m2 st) :
    m1 = m1v ∧ m2 = some m2v ∧ st = pairedStatus m1v m2v := by
  unfold pairChecks at h
  by_cases hc1 : pairedStatus m1v m2v &&& 1 = 1 ∧
      (if m1v.l_qseq = 0 then e1 else m1v.l_qseq) ≠ bam_cigar2qlen m1v
  · rw [if_pos hc1] at h
    cases h
  · rw [if_neg hc1] at h
    by_cases hc2 : pairedStatus m1v m2v &&& 2 = 2 ∧
        (if m2v.l_qseq = 0 then e2 else m2v.l_qseq) ≠ bam_cigar2qlen m2v
    · rw [if_pos hc2] at h
      cases h
    · rw [if_neg hc2] at h
      cases h
      exact ⟨rfl, rfl, rfl⟩

theorem pairedStatus_formula (a b : bam1_t) :
    pairedStatus a b = (if bam_is_mapped a then 1 else 0) |||
      (if bam_is_mapped b then 2 else 0) := by
  unfold pairedStatus
  cases hA : bam_is_mapped a <;> cases hB : bam_is_mapped b <;> simp

theorem singleStatus_formula (a : bam1_t) :
    (if bam_is_mapped a then 1 else 0) =
      (if bam_is_mapped a then 1 else 0) ||| (0 : Nat) := by
  cases hA : bam_is_mapped a <;> simp

theorem getElem_readRange (d : Buf) (off len j : Nat)
    (h : j < (readRange d off len).length) :
    (readRange d off len)[j] = d (off + j) := by
  simp [readRange]

theorem readRange_eq_list (d : Buf) (off len : Nat) (L : List Nat)
    (hlen : L.length = len) (h : ∀ j, j < len → d (off + j) = L.getD j 0) :
    readRange d off len = L := by
  apply List.ext_getElem (by rw [length_readRange, hlen])
  intro j h1 h2
  rw [getElem_readRange]
  exact (h j (by rw [length_readRange] at h1; exact h1)).trans
    (List.getD_eq_getElem _ _ h2)

theorem getD_packSeq (codes : List Nat) (j : Nat)
    (h : j < seqBytes codes.length) :
    (packSeq codes).getD j 0 =
      16 * (codes.getD (2 * j) 0 % 16) + codes.getD (2 * j + 1) 0 % 16 := by
  rw [packSeq, List.getD_eq_getElem?_getD, List.getElem?_map,
      List.getElem?_range h]
  rfl

theorem rnt_le (c : Nat) : rnt c ≤ 15 := by
  unfold rnt
  by_cases h : c < 16
  · interval_cases c <;> decide
  · rw [List.getD_eq_default]
    · decide
    · simp only [rnt_table, List.length_cons, List.length_nil]
      omega

theorem getD_rc_codes (d : Buf) (off len i : Nat) (h : i < len) :
    (((unpackSeq d off len).reverse).map rnt).getD i 0 =
      rnt (bam_seqi d off (len - 1 - i)) := by
  have hi : i < (((unpackSeq d off len).reverse).map rnt).length := by
    simp [unpackSeq]
    omega
  rw [List.getD_eq_getElem _ _ hi, List.getElem_map]
  congr 1
  rw [List.getElem_reverse]
  simp [unpackSeq]

theorem copy_rc_seq_nibble (other : bam1_t) (len i : Nat) (h : i < len) :
    (if i % 2 = 0 then (copy_rc_seq other len).getD (i / 2) 0 / 16 % 16
     else (copy_rc_seq other len).getD (i / 2) 0 % 16) =
      rnt (bam_seqi other.data (seq_off other) (len - 1 - i)) := by
  have hj : i / 2 <
      seqBytes ((((unpackSeq other.data (seq_off other) len).reverse).map
        rnt).length) := by
    simp only [List.length_map, List.length_reverse, unpackSeq,
      List.length_range]
    unfold seqBytes
    omega
  rw [copy_rc_seq, getD_packSeq _ _ hj]
  have hv := getD_rc_codes other.data (seq_off other) len i h
  have hr := rnt_le (bam_seqi other.data (seq_off other) (len - 1 - i))
  by_cases hpar : i % 2 = 0
  · rw [if_pos hpar]
    have h1 : 2 * (i / 2) = i := by omega
    rw [h1, hv]
    omega
  · rw [if_neg hpar]
    have h1 : 2 * (i / 2) + 1 = i := by omega
    rw [h1, hv]
    omega

/-! Claim theorems. -/

/-- C7: during `readUnit` on a record flagged paired, a fatal defect
(an aborting assertion, not a returned unit) occurs whenever no second
record can be read, or the two mate-identity flag patterns are not
complementary; in every such case no unit is returned. -/
theorem readUnit_pairing_fatal (r1 : bam1_t) (rest : List bam1_t)
    (e1 e2 : Nat) (hp : bam_is_paired r1 = true)
    (hbad : rest = [] ∨ ∃ r2 rest2, rest = r2 :: rest2 ∧
      ¬ ((mateBits r1 = 0x40 ∧ mateBits r2 = 0x80) ∨
         (mateBits r1 = 0x80 ∧ mateBits r2 = 0x40))) :
    ∃ msg, readUnit (r1 :: rest) e1 e2 = .fatal msg := by
  rcases hbad with h | ⟨r2, rest2, hr, hnc⟩
  · subst h
    exact ⟨_, by rw [readUnit, if_pos hp]⟩
  · subst hr
    by_cases hb2 : bam_is_paired r2 = true
    · exact ⟨_, by rw [readUnit, if_pos hp, if_neg (not_not_intro hb2),
        if_pos hnc]⟩
    · exact ⟨_, by rw [readUnit, if_pos hp, if_pos hb2]⟩

/-- C7 witness: two mates both flagged first-in-pair trigger a fatal
defect. -/
theorem readUnit_pairing_fatal_witness :
    bam_is_paired wPr1 = true ∧
    ∃ msg, readUnit [wPr1, wPr1] 0 0 = .fatal msg :=
  ⟨by decide, readUnit_pairing_fatal wPr1 [wPr1] 0 0 (by decide)
    (Or.inr ⟨wPr1, [], rfl, by decide⟩)⟩

/-- C6: for a paired read whose first physically read record is flagged
second-in-pair and whose second is flagged first-in-pair, a successful
`readUnit` returns the unit with the exchanged order: mate 1 (the second
physical record) first, mate 2 second.  In the embedding the exchange of
buffer ownership at source line 55 is the exchange of the two record
values. -/
theorem readUnit_mate_normalization (r1 r2 : bam1_t) (rest : List bam1_t)
    (e1 e2 : Nat) (m1 : bam1_t) (m2 : Option bam1_t) (st : Nat)
    (hp : bam_is_paired r1 = true)
    (h1 : mateBits r1 = 0x80) (h2 : mateBits r2 = 0x40)
    (hok : readUnit (r1 :: r2 :: rest) e1 e2 = .ok m1 m2 st) :
    m1 = r2 ∧ m2 = some r1 := by
  have hread2 : bam_is_read2 r1 = true := by
    simp only [mateBits] at h1
    simp only [bam_is_read2, decide_eq_true_eq]
    omega
  rw [readUnit, if_pos hp] at hok
  by_cases hb2 : bam_is_paired r2 = true
  · rw [if_neg (not_not_intro hb2),
        if_neg (not_not_intro (Or.inr ⟨h1, h2⟩)), if_pos hread2,
        if_pos hread2] at hok
    obtain ⟨ha, hb, _⟩ := pairChecks_ok hok
    exact ⟨ha, hb⟩
  · rw [if_pos hb2] at hok
    cases hok

/-- C6 witness: physical order (mate 2, mate 1) comes back normalized. -/
theorem readUnit_mate_normalization_witness :
    bam_is_paired wPr2 = true ∧ mateBits wPr2 = 0x80 ∧ mateBits wPr1 = 0x40 ∧
    (wPr1 = wPr1 ∧ some wPr2 = some wPr2) :=
  ⟨by decide, by decide, by decide,
    readUnit_mate_normalization wPr2 wPr1 [] 0 0 wPr1 (some wPr2) 3
      (by decide) (by decide) (by decide) rfl⟩

/-- C8: on every successful `readUnit` the returned alignment-status
bitmask is bit 0 = mate 1 mapped, bit 1 = mate 2 present (paired) and
mapped. -/
theorem readUnit_status (stream : List bam1_t) (e1 e2 : Nat) (m1 : bam1_t)
    (m2 : Option bam1_t) (st : Nat)
    (hok : readUnit stream e1 e2 = .ok m1 m2 st) :
    st = (if bam_is_mapped m1 then 1 else 0) |||
      (match m2 with
       | some mm => if bam_is_mapped mm then 2 else 0
       | none => 0) := by
  cases stream with
  | nil =>
    rw [readUnit] at hok
    cases hok
  | cons r1 rest =>
    cases rest with
    | nil =>
      rw [readUnit] at hok
      by_cases hp : bam_is_paired r1 = true
      · rw [if_pos hp] at hok
        cases hok
      · rw [if_neg hp] at hok
        by_cases hc : (if bam_is_mapped r1 then 1 else 0) &&& 1 = 1 ∧
            (if r1.l_qseq = 0 then e1 else r1.l_qseq) ≠ bam_cigar2qlen r1
        · rw [if_pos hc] at hok
          cases hok
        · rw [if_neg hc] at hok
          cases hok
          exact singleStatus_formula _
    | cons r2 rest2 =>
      rw [readUnit] at hok
      by_cases hp : bam_is_paired r1 = true
      · rw [if_pos hp] at hok
        by_cases hb2 : bam_is_paired r2 = true
        · rw [if_neg (not_not_intro hb2)] at hok
          by_cases hc : (mateBits r1 = 0x40 ∧ mateBits r2 = 0x80) ∨
              (mateBits r1 = 0x80 ∧ mateBits r2 = 0x40)
          · rw [if_neg (not_not_intro hc)] at hok
            obtain ⟨hm1, hm2, hst⟩ := pairChecks_ok hok
            subst hm1
            subst hm2
            subst hst
            exact pairedStatus_formula _ _
          · rw [if_pos hc] at hok
            cases hok
        · rw [if_pos hb2] at hok
          cases hok
      · rw [if_neg hp] at hok
        by_cases hc : (if bam_is_mapped r1 then 1 else 0) &&& 1 = 1 ∧
            (if r1.l_qseq = 0 then e1 else r1.l_qseq) ≠ bam_cigar2qlen r1
        · rw [if_pos hc] at hok
          cases hok
        · rw [if_neg hc] at hok
          cases hok
          exact singleStatus_formula _

/-- C8 witness: both mates mapped gives status 3. -/
theorem readUnit_status_witness :
    (3 : Nat) = (if bam_is_mapped wPr1 then 1 else 0) |||
      (match (some wPr2 : Option bam1_t) with
       | some mm => if bam_is_mapped mm then 2 else 0
       | none => 0) :=
  readUnit_status [wPr2, wPr1] 0 0 wPr1 (some wPr2) 3 rfl

/-- C4: for every packed 4-bit code with a defined complement (a code
`rnt_table` does not send to the unused value 0; exactly the codes
1, 2, 4, 8, 15), applying the complement table twice is the identity. -/
theorem rnt_involution : ∀ c < 16, rnt c ≠ 0 → rnt (rnt c) = c := by decide

/-- C4 witness: code 1 (base A). -/
theorem rnt_involution_witness : rnt (rnt 1) = 1 :=
  rnt_involution 1 (by decide) (by decide)

/-- C9: both `compress` and `decompress` re-establish the layout
invariant `l_data = l_qname + 4 * n_cigar + ceil(l_qseq / 2) + l_qseq +
aux length` on a record satisfying it beforehand; moreover the residual
auxiliary length is unchanged by either operation. -/
theorem codec_layout_invariant (b other : bam1_t)
    (hb : aux_off b ≤ b.l_data) :
    ((compress b).l_data = (compress b).l_qname + 4 * (compress b).n_cigar +
        seqBytes (compress b).l_qseq + (compress b).l_qseq +
        bam_get_l_aux (compress b) ∧
      bam_get_l_aux (compress b) = bam_get_l_aux b) ∧
    ((decompress b other).l_data = (decompress b other).l_qname +
        4 * (decompress b other).n_cigar + seqBytes (decompress b other).l_qseq +
        (decompress b other).l_qseq + bam_get_l_aux (decompress b other) ∧
      bam_get_l_aux (decompress b other) = bam_get_l_aux b) := by
  obtain ⟨hc1, hc2, hc3, hc4, hc5, hc6⟩ := compress_header b
  obtain ⟨hd1, hd2, hd3, hd4, hd5, hd6⟩ := decompress_header b other
  have hA : bam_get_l_aux (compress b) = bam_get_l_aux b := by
    unfold bam_get_l_aux aux_off qual_off seq_off
    rw [hc1, hc3, hc4, hc6]
    unfold bam_get_l_aux aux_off qual_off seq_off seqBytes
    omega
  have hB : bam_get_l_aux (decompress b other) = bam_get_l_aux b := by
    unfold bam_get_l_aux aux_off qual_off seq_off
    rw [hd1, hd3, hd4, hd6]
    unfold bam_get_l_aux aux_off qual_off seq_off seqBytes
    omega
  refine ⟨⟨?_, hA⟩, ?_, hB⟩
  · rw [hc1, hc3, hc4, hc6, hA]
    unfold bam_get_l_aux aux_off qual_off seq_off seqBytes
    omega
  · rw [hd1, hd3, hd4, hd6, hB]
    unfold bam_get_l_aux aux_off qual_off seq_off seqBytes
    omega

/-- C9 witness: the uncompacted record `wR` (`aux_off = 18 ≤ 25`). -/
theorem codec_layout_invariant_witness :
    aux_off wR ≤ wR.l_data ∧
    (((compress wR).l_data = (compress wR).l_qname +
        4 * (compress wR).n_cigar + seqBytes (compress wR).l_qseq +
        (compress wR).l_qseq + bam_get_l_aux (compress wR) ∧
      bam_get_l_aux (compress wR) = bam_get_l_aux wR) ∧
    ((decompress wR wDon).l_data = (decompress wR wDon).l_qname +
        4 * (decompress wR wDon).n_cigar +
        seqBytes (decompress wR wDon).l_qseq +
        (decompress wR wDon).l_qseq + bam_get_l_aux (decompress wR wDon) ∧
      bam_get_l_aux (decompress wR wDon) = bam_get_l_aux wR)) :=
  ⟨by decide, codec_layout_invariant wR wDon (by decide)⟩

/-- C10: at the start of every `write` call, before any action, each
record whose raw `l_qname` field equals 1 has its `l_qseq` field forced
to 0 and nothing else changed, and records with any other raw `l_qname`
are left entirely unchanged by this step; with action 0 the forwarded
records are exactly the preprocessed ones. -/
theorem write_preset_l_qseq (al : Int) (b r2 ob ob2 : bam1_t)
    (hal : 0 ≤ al) :
    writeUnit al true b (some r2) 0 ob ob2 =
      .ok [presetCompactSeq b, presetCompactSeq r2] ∧
    writeUnit al false b none 0 ob ob2 = .ok [presetCompactSeq b] ∧
    (∀ r : bam1_t,
      (presetCompactSeq r).l_qseq = (if r.l_qname = 1 then 0 else r.l_qseq) ∧
      (r.l_qname ≠ 1 → presetCompactSeq r = r) ∧
      (presetCompactSeq r).l_qname = r.l_qname ∧
      (presetCompactSeq r).l_extranul = r.l_extranul ∧
      (presetCompactSeq r).n_cigar = r.n_cigar ∧
      (presetCompactSeq r).flag = r.flag ∧
      (presetCompactSeq r).l_data = r.l_data ∧
      (presetCompactSeq r).data = r.data) := by
  refine ⟨?_, ?_, ?_⟩
  · rw [writeUnit, if_neg (not_not_intro hal)]
  · rw [writeUnit, if_neg (not_not_intro hal)]
  · intro r
    unfold presetCompactSeq
    by_cases h : r.l_qname = 1
    · rw [if_pos h, if_pos h]
      exact ⟨rfl, fun hn => absurd h hn, rfl, rfl, rfl, rfl, rfl, rfl⟩
    · rw [if_neg h, if_neg h]
      exact ⟨rfl, fun _ => rfl, rfl, rfl, rfl, rfl, rfl, rfl⟩

/-- C10 witness: a legacy compacted record (`l_qname = 1`, `l_qseq = 7`)
and a regular record through a choice-0 write. -/
theorem write_preset_l_qseq_witness :
    (0 : Int) ≤ 0 ∧
    writeUnit 0 true wLeg (some wR) 0 wDon wDon =
      .ok [presetCompactSeq wLeg, presetCompactSeq wR] ∧
    (presetCompactSeq wLeg).l_qseq = 0 ∧ (presetCompactSeq wR).l_qseq = 4 :=
  ⟨le_refl 0, (write_preset_l_qseq 0 wLeg wR wDon wDon (le_refl 0)).1,
    by decide, by decide⟩

/-- C1: evaluation of `write` with action Decompress at the failing
input.  Mate 2 (`c1_b2`) has logical name length `4 - 3 = 1`, so by the
claim the decompress transformation must be applied to it (which would
set its `l_qname` to the donor value 8); the code instead tests
`b2->core.l_qname - b->core.l_extranul` — mate 1's padding-null count —
which is `4 - 1 = 3`, skips the call, and forwards mate 2 still
compacted with `l_qname = 4`. -/
theorem write_decompress_mate2_skipped :
    ((c1_b2.l_qname : Int) - (c1_b2.l_extranul : Int) = 1) ∧
    (writeUnit 0 true c1_b (some c1_b2) 2 c1_don c1_don).toOption.map
      (List.map bam1_t.l_qname) = some [6, 4] ∧
    (decompress (presetCompactSeq c1_b2) c1_don).l_qname = 8 := by
  refine ⟨by decide, ?_, by decide⟩
  decide

/-- C5: on an uncompacted record whose name slot is 4-byte padded
(`4 ≤ l_qname`, as the BAM layout guarantees), `compress` sets the
header to name length 4, padding-null count 3, sequence length 0,
payload length `4 + 4 * n_cigar + l_aux`, preserves the CIGAR and
auxiliary bytes exactly, and leaves the record compacted (logical name
length 1). -/
theorem compress_spec (b : bam1_t)
    (hu : (b.l_qname : Int) - (b.l_extranul : Int) > 1)
    (hq : 4 ≤ b.l_qname) :
    (compress b).l_qname = 4 ∧ (compress b).l_extranul = 3 ∧
    (compress b).l_qseq = 0 ∧
    (compress b).l_data = 4 + 4 * b.n_cigar + bam_get_l_aux b ∧
    readRange (compress b).data 4 (4 * b.n_cigar) =
      readRange b.data (cigar_off b) (4 * b.n_cigar) ∧
    readRange (compress b).data (4 + 4 * b.n_cigar) (bam_get_l_aux b) =
      readRange b.data (aux_off b) (bam_get_l_aux b) ∧
    ((compress b).l_qname : Int) - ((compress b).l_extranul : Int) = 1 := by
  obtain ⟨hc1, hc2, hc3, hc4, hc5, hc6⟩ := compress_header b
  refine ⟨hc1, hc2, hc3, by omega, ?_, ?_, by rw [hc1, hc2]; decide⟩
  · apply readRange_congr
    intro j hj
    rw [compress_data_cigar b hq (4 + j) (by omega) (by omega)]
    have harg : 4 + j - 4 = j := by omega
    rw [harg]
    rfl
  · apply readRange_congr
    intro j hj
    rw [compress_data_aux b hq (4 + 4 * b.n_cigar + j) (by omega) (by omega)]
    have harg : 4 + 4 * b.n_cigar + j - (4 + b.n_cigar * 4) = j := by omega
    rw [harg]

/-- C5 witness: the uncompacted record `wR`. -/
theorem compress_spec_witness :
    ((wR.l_qname : Int) - (wR.l_extranul : Int) > 1) ∧ 4 ≤ wR.l_qname ∧
    ((compress wR).l_qname = 4 ∧ (compress wR).l_extranul = 3 ∧
     (compress wR).l_qseq = 0 ∧
     (compress wR).l_data = 4 + 4 * wR.n_cigar + bam_get_l_aux wR ∧
     readRange (compress wR).data 4 (4 * wR.n_cigar) =
       readRange wR.data (cigar_off wR) (4 * wR.n_cigar) ∧
     readRange (compress wR).data (4 + 4 * wR.n_cigar) (bam_get_l_aux wR) =
       readRange wR.data (aux_off wR) (bam_get_l_aux wR) ∧
     ((compress wR).l_qname : Int) - ((compress wR).l_extranul : Int) = 1) :=
  ⟨by decide, by decide, compress_spec wR (by decide) (by decide)⟩

/-- C2: round trip on the same strand.  For an uncompacted record `R`
(4-byte padded name slot) and a compacted copy produced by `compress`
(its flag possibly rewritten to `f`, but with the same reverse-strand
bit as `R`), `decompress` against donor `R` restores the name header
fields and the name, packed sequence and quality bytes of `R`
exactly. -/
theorem decompress_compress_same_strand (R : bam1_t) (f : Nat)
    (hrev : bam_is_rev { compress R with flag := f } = bam_is_rev R) :
    (decompress { compress R with flag := f } R).l_qname = R.l_qname ∧
    (decompress { compress R with flag := f } R).l_extranul = R.l_extranul ∧
    (decompress { compress R with flag := f } R).l_qseq = R.l_qseq ∧
    readRange (decompress { compress R with flag := f } R).data 0 R.l_qname =
      readRange R.data 0 R.l_qname ∧
    readRange (decompress { compress R with flag := f } R).data (seq_off R)
        (seqBytes R.l_qseq) =
      readRange R.data (seq_off R) (seqBytes R.l_qseq) ∧
    readRange (decompress { compress R with flag := f } R).data (qual_off R)
        R.l_qseq =
      readRange R.data (qual_off R) R.l_qseq := by
  have hn : ({ compress R with flag := f } : bam1_t).n_cigar = R.n_cigar := rfl
  have hn2 : (compress R).n_cigar = R.n_cigar := rfl
  refine ⟨rfl, rfl, rfl, ?_, ?_, ?_⟩
  · apply readRange_congr
    intro j hj
    exact decompress_data_name { compress R with flag := f } R (0 + j)
      (by omega)
  · apply readRange_congr
    intro j hj
    rw [decompress_data_seq_same { compress R with flag := f } R hrev
      (seq_off R + j) (by simp only [hn, hn2, seq_off]; omega)
      (by simp only [hn, hn2, seq_off]; omega)]
    congr 1
    simp only [hn, hn2, seq_off]
    omega
  · apply readRange_congr
    intro j hj
    rw [decompress_data_qual_same { compress R with flag := f } R hrev
      (qual_off R + j) (by simp only [hn, hn2, qual_off, seq_off]; omega)
      (by simp only [hn, hn2, qual_off, seq_off]; omega)]
    congr 1
    simp only [hn, hn2, qual_off, seq_off]
    omega

/-- C2 witness: the reverse-strand record `wR`, with the compacted copy
keeping flag 0x10. -/
theorem decompress_compress_same_strand_witness :
    bam_is_rev { compress wR with flag := 0x10 } = bam_is_rev wR ∧
    ((decompress { compress wR with flag := 0x10 } wR).l_qname = wR.l_qname ∧
     (decompress { compress wR with flag := 0x10 } wR).l_extranul =
       wR.l_extranul ∧
     (decompress { compress wR with flag := 0x10 } wR).l_qseq = wR.l_qseq ∧
     readRange (decompress { compress wR with flag := 0x10 } wR).data 0
         wR.l_qname =
       readRange wR.data 0 wR.l_qname ∧
     readRange (decompress { compress wR with flag := 0x10 } wR).data
         (seq_off wR) (seqBytes wR.l_qseq) =
       readRange wR.data (seq_off wR) (seqBytes wR.l_qseq) ∧
     readRange (decompress { compress wR with flag := 0x10 } wR).data
         (qual_off wR) wR.l_qseq =
       readRange wR.data (qual_off wR) wR.l_qseq) :=
  ⟨by decide, decompress_compress_same_strand wR 0x10 (by decide)⟩

/-- C3: strand handling of `decompress`.  When the record and donor
reverse-strand flags agree, the donor packed sequence and quality bytes
are copied verbatim into the record; when they differ, every base of the
record is the complement (through `rnt_table`) of the donor base at the
mirrored position, and the record quality is the donor quality with
order reversed and values unchanged. -/
theorem decompress_strand_cases (b other : bam1_t) :
    (bam_is_rev b = bam_is_rev other →
      readRange (decompress b other).data (seq_off (decompress b other))
          (seqBytes other.l_qseq) =
        readRange other.data (seq_off other) (seqBytes other.l_qseq) ∧
      readRange (decompress b other).data (qual_off (decompress b other))
          other.l_qseq =
        readRange other.data (qual_off other) other.l_qseq) ∧
    (¬ bam_is_rev b = bam_is_rev other →
      (∀ i, i < other.l_qseq →
        bam_seqi (decompress b other).data (seq_off (decompress b other)) i =
          rnt (bam_seqi other.data (seq_off other) (other.l_qseq - 1 - i))) ∧
      readRange (decompress b other).data (qual_off (decompress b other))
          other.l_qseq =
        (readRange other.data (qual_off other) other.l_qseq).reverse) := by
  have hs : seq_off (decompress b other) =
      other.l_qname + 4 * b.n_cigar := rfl
  have hq : qual_off (decompress b other) =
      other.l_qname + 4 * b.n_cigar + seqBytes other.l_qseq := rfl
  constructor
  · intro hrev
    constructor
    · apply readRange_congr
      intro j hj
      rw [hs, decompress_data_seq_same b other hrev
        (other.l_qname + 4 * b.n_cigar + j) (by omega) (by omega)]
      congr 1
      omega
    · apply readRange_congr
      intro j hj
      rw [hq, decompress_data_qual_same b other hrev
        (other.l_qname + 4 * b.n_cigar + seqBytes other.l_qseq + j)
        (by omega) (by omega)]
      congr 1
      omega
  · intro hrev
    constructor
    · intro i hi
      have hdat : (decompress b other).data
          (seq_off (decompress b other) + i / 2) =
          (copy_rc_seq other other.l_qseq).getD (i / 2) 0 := by
        rw [hs, decompress_data_seq_rc b other hrev
          (other.l_qname + 4 * b.n_cigar + i / 2) (by omega)
          (by unfold seqBytes; omega)]
        congr 1
        omega
      rw [bam_seqi, hdat, copy_rc_seq_nibble other other.l_qseq i hi]
    · apply readRange_eq_list
      · rw [List.length_reverse, length_readRange]
      · intro j hj
        rw [hq, decompress_data_qual_rc b other hrev
          (other.l_qname + 4 * b.n_cigar + seqBytes other.l_qseq + j)
          (by omega) (by omega)]
        have harg : other.l_qname + 4 * b.n_cigar + seqBytes other.l_qseq +
            j - (other.l_qname + 4 * b.n_cigar + seqBytes other.l_qseq) = j :=
          by omega
        rw [harg]
        rfl

/-- C3 witness: the concrete scenario of spec section 8 — donor bases
A,C,G,T on the forward strand restored into a reverse-strand record:
base 0 of the result is the complement of donor base 3, and the quality
comes back as 40,30,20,10. -/
theorem decompress_strand_cases_witness :
    (¬ bam_is_rev wCmp = bam_is_rev wDon) ∧
    bam_seqi (decompress wCmp wDon).data (seq_off (decompress wCmp wDon)) 0 =
      rnt (bam_seqi wDon.data (seq_off wDon) (wDon.l_qseq - 1 - 0)) ∧
    readRange (decompress wCmp wDon).data (qual_off (decompress wCmp wDon))
        wDon.l_qseq =
      (readRange wDon.data (qual_off wDon) wDon.l_qseq).reverse :=
  ⟨by decide,
    ((decompress_strand_cases wCmp wDon).2 (by decide)).1 0 (by decide),
    ((decompress_strand_cases wCmp wDon).2 (by decide)).2⟩

end BamSpec
